import Mathlib

/-!
# Verification of the tidyup directory-organizing tool

A shallow embedding of `src/main.rs` of tidyup-rs.  Characters are
modelled by their Unicode scalar values, so a filename or a command-line
token is a `List Nat` (for ASCII text these are the byte values).  The
filesystem and the operating system are an external collaborator: each
fallible primitive (`create_dir`, `read_dir`, the per-entry metadata
read, `rename`) either behaves according to the modelled filesystem
state or fails with an error injected by an `Env` oracle, mirroring the
`std::io::Result` returns in the Rust source.
-/

namespace Tidyup

/-- A Rust string / OsString: the list of Unicode scalar values. -/
abbrev Str := List Nat

/-- `u8::to_ascii_lowercase` / `str::to_ascii_lowercase` on one scalar
value: ASCII `A`..`Z` (65..90) is shifted by 32, everything else is
unchanged (non-ASCII uppercase letters are NOT lowercased). -/
def asciiLower (c : Nat) : Nat :=
  if 65 ≤ c ∧ c ≤ 90 then c + 32 else c

/-- The portion of the character list strictly after its final `.`
(scalar value 46), or `none` when it holds no `.` at all. -/
def afterLastDot : Str → Option Str
  | [] => none
  | c :: cs =>
    match afterLastDot cs with
    | some r => some r
    | none => if c = 46 then some cs else none

/-- Rust `Path::extension()` applied to a directory-entry name
(`entry.path().extension()` in `main.rs` line 116).  Per
`std::path::split_file_at_dot`: the name `..` has no extension, and the
split looks for the last `.` strictly after the first character, so a
leading-dot name such as `.png` whose only dot is the first character
has no extension. -/
def rustExtension (name : Str) : Option Str :=
  if name = [46, 46] then none
  else
    match name with
    | [] => none
    | _ :: cs => afterLastDot cs

/-- The extension string the program computes for a file name
(`main.rs` lines 116-119):
`path.extension().and_then(to_str).unwrap_or_default().to_ascii_lowercase()`. -/
def extOf (name : Str) : Str :=
  ((rustExtension name).getD []).map asciiLower

/-- `"png"` -/
def strPng : Str := [112, 110, 103]
/-- `"jpg"` -/
def strJpg : Str := [106, 112, 103]
/-- `"jpeg"` -/
def strJpeg : Str := [106, 112, 101, 103]
/-- `"py"` -/
def strPy : Str := [112, 121]
/-- `"cpp"` -/
def strCpp : Str := [99, 112, 112]
/-- `"images"` -/
def strImages : Str := [105, 109, 97, 103, 101, 115]
/-- `"python"` -/
def strPython : Str := [112, 121, 116, 104, 111, 110]
/-- `"c++"` -/
def strCxx : Str := [99, 43, 43]

/-- The routing table (`main.rs` lines 93-98): a `HashMap` from
lowercase extension to destination subdirectory, modelled as an
association list with the insertion order of the source (keys are
distinct, so the order carries no meaning for lookups). -/
def extension_mapping : List (Str × Str) :=
  [(strPng, strImages), (strJpg, strImages), (strJpeg, strImages),
   (strPy, strPython), (strCpp, strCxx)]

/-- `HashMap::get`: first-match lookup in the association list (keys of
`extension_mapping` are distinct, so this is exact). -/
def lookupExt (ext : Str) : List (Str × Str) → Option Str
  | [] => none
  | (k, v) :: rest => if ext = k then some v else lookupExt ext rest

/-- `Vec::contains`: linear scan with equality. -/
def listContains (l : List Str) (x : Str) : Bool :=
  match l with
  | [] => false
  | y :: ys => if y = x then true else listContains ys x

/-- The filter condition of `main.rs` line 121, verbatim:
`!extension.is_empty() && ((relevant_extensions.contains(&extension) ||
relevant_extensions.is_empty()) && (ignore_extensions.is_empty() ||
!ignore_extensions.contains(&extension)))`. -/
def moveCondition (relevant_extensions ignore_extensions : List Str)
    (extension : Str) : Bool :=
  !extension.isEmpty &&
    ((listContains relevant_extensions extension || relevant_extensions.isEmpty) &&
     (ignore_extensions.isEmpty || !listContains ignore_extensions extension))

/-- Modelled from the spec's words, for comparison with `extOf`: "the
substring after the final `.` in the filename, lowercased; a filename
with no `.` or ending in `.` yields an empty extension". -/
def specExtension (name : Str) : Str :=
  ((afterLastDot name).getD []).map asciiLower

/-- Modelled from the spec's words, for comparison with the code's
condition: a file is moved iff (a) non-empty extension, (b) the
extension is a key of the rule table, (c) the include filter is empty
or contains it, (d) the exclude filter does not contain it. -/
def specEligible (relevant ignore : List Str) (ext : Str) : Bool :=
  decide (ext ≠ []) && (lookupExt ext extension_mapping).isSome &&
    (decide (relevant = []) || listContains relevant ext) &&
    !listContains ignore ext

/-- `"-d"` -/
def strDShort : Str := [45, 100]
/-- `"--directory"` -/
def strDLong : Str := [45, 45, 100, 105, 114, 101, 99, 116, 111, 114, 121]
/-- `"-e"` -/
def strEShort : Str := [45, 101]
/-- `"--extensions"` -/
def strELong : Str := [45, 45, 101, 120, 116, 101, 110, 115, 105, 111, 110, 115]
/-- `"-i"` -/
def strIShort : Str := [45, 105]
/-- `"--ignore"` -/
def strILong : Str := [45, 45, 105, 103, 110, 111, 114, 101]
/-- `"-v"` -/
def strVShort : Str := [45, 118]
/-- `"--verbose"` -/
def strVLong : Str := [45, 45, 118, 101, 114, 98, 111, 115, 101]
/-- `"-h"` -/
def strHShort : Str := [45, 104]
/-- `"--help"` -/
def strHLong : Str := [45, 45, 104, 101, 108, 112]
/-- `"."` -/
def strDot : Str := [46]

/-- The mutable locals of `tidyup` set up in `main.rs` lines 39-43. -/
structure Config where
  relevant_extensions : List Str
  ignore_extensions : List Str
  dir_name : Str
  verbose : Bool
deriving DecidableEq

/-- Initial values of the locals (`main.rs` lines 39-43); note that
`verbose` starts out `true`. -/
def defaultConfig : Config :=
  { relevant_extensions := [], ignore_extensions := [],
    dir_name := strDot, verbose := true }

/-- How the argument loop of `main.rs` lines 45-87 ends: with a filled
configuration, with usage printed after an error message (unknown
argument, or `-d`/`--directory` without a value — both `return Ok(())`),
or with usage printed for `-h`/`--help` (also `return Ok(())`). -/
inductive ParseOutcome where
  | ok (cfg : Config)
  | usageExit
  | helpExit
deriving DecidableEq

/-- Rust `args[i].starts_with('-')`. -/
def startsWithDash (s : Str) : Bool :=
  decide (s.head? = some 45)

lemma length_dropWhile_le (p : Str → Bool) (l : List Str) :
    (l.dropWhile p).length ≤ l.length := by
  induction l with
  | nil => simp [List.dropWhile]
  | cons a l ih =>
    by_cases h : p a
    · simp only [List.dropWhile, h]
      exact Nat.le_succ_of_le ih
    · simp [List.dropWhile, h]

/-- The argument loop of `main.rs` lines 45-87, recursing over the
arguments after the program name.  `-e`/`--extensions` and
`-i`/`--ignore` consume following tokens up to (excluding) the next
token starting with `-` (the inner `while` plus the `i -= 1; i += 1`
adjustment); `-d`/`--directory` consumes the single next token
unconditionally. -/
def parseArgs : List Str → Config → ParseOutcome
  | [], cfg => .ok cfg
  | a :: rest, cfg =>
    if a = strDShort ∨ a = strDLong then
      match rest with
      | v :: rest1 => parseArgs rest1 { cfg with dir_name := v }
      | [] => .usageExit
    else if a = strEShort ∨ a = strELong then
      parseArgs (rest.dropWhile (fun t => !startsWithDash t))
        { cfg with relevant_extensions :=
            cfg.relevant_extensions ++ rest.takeWhile (fun t => !startsWithDash t) }
    else if a = strIShort ∨ a = strILong then
      parseArgs (rest.dropWhile (fun t => !startsWithDash t))
        { cfg with ignore_extensions :=
            cfg.ignore_extensions ++ rest.takeWhile (fun t => !startsWithDash t) }
    else if a = strVShort ∨ a = strVLong then
      parseArgs rest { cfg with verbose := true }
    else if a = strHShort ∨ a = strHLong then .helpExit
    else .usageExit
termination_by args _ => args.length
decreasing_by
  all_goals simp only [List.length_cons]
  · omega
  · exact Nat.lt_succ_of_le (length_dropWhile_le _ _)
  · exact Nat.lt_succ_of_le (length_dropWhile_le _ _)
  · omega

/-- An I/O error, kept abstract (the message string). -/
abbrev Err := String

/-- One directory entry of the target directory as yielded by
`fs::read_dir`.  `accessErr` injects a failure of the
`entry?`/`entry.metadata()?` step, `renameErr` a failure of
`fs::rename` should it be attempted; `none` means the operation
succeeds. -/
structure Entry where
  name : Str
  is_file : Bool
  accessErr : Option Err
  renameErr : Option Err
deriving DecidableEq

/-- The external world: the target directory's existence, the category
subdirectories it already holds, its entries, and injected failures for
`fs::create_dir` and `fs::read_dir`. -/
structure Env where
  rootExists : Bool
  subdirs0 : List Str
  createErr : Str → Option Err
  listErr : Option Err
  entries : List Entry

/-- Filesystem state the run mutates: the target directory's existence
and the set of category subdirectories under it. -/
structure Fs where
  rootExists : Bool
  subdirs : List Str
deriving DecidableEq

/-- `ext_dir.exists()` (`main.rs` line 101): a subdirectory path
`dir/sub` exists iff the target directory exists and holds `sub`. -/
def dirExists (fs : Fs) (d : Str) : Bool :=
  fs.rootExists && listContains fs.subdirs d

/-- `fs::create_dir(ext_dir)` (`main.rs` line 102): fails with an
injected error if the oracle says so, fails with `NotFound` when the
parent (target) directory is missing, otherwise records the new
subdirectory. -/
def create_dir (env : Env) (fs : Fs) (d : Str) : Except Err Fs :=
  match env.createErr d with
  | some e => .error e
  | none =>
    if fs.rootExists then .ok { fs with subdirs := fs.subdirs ++ [d] }
    else .error "create_dir: No such file or directory"

/-- The provisioning loop of `main.rs` lines 100-104 over the routing
table's values, threading the `?` of `create_dir`.  Returns the
filesystem reached, the list of subdirectories whose creation was
attempted (in order, the failing one included), and the first error if
any. -/
def provision (env : Env) (fs : Fs) : List Str → (Fs × List Str) × Option Err
  | [] => ((fs, []), none)
  | d :: ds =>
    if dirExists fs d then provision env fs ds
    else
      match create_dir env fs d with
      | .error e => ((fs, [d]), some e)
      | .ok fs1 =>
        (((provision env fs1 ds).1.1, d :: (provision env fs1 ds).1.2),
          (provision env fs1 ds).2)

/-- The values of the routing table iterated by the provisioning loop
(`extension_mapping.values()`); `HashMap` iteration order is
unspecified, the insertion order is used here and no proved claim
depends on it. -/
def mappingDirs : List Str := extension_mapping.map Prod.snd

/-- `fs::read_dir(path)` (`main.rs` line 106): an injected failure, or
`NotFound` when the target directory is missing, or its entries. -/
def read_dir (env : Env) (fs : Fs) : Except Err (List Entry) :=
  match env.listErr with
  | some e => .error e
  | none =>
    if fs.rootExists then .ok env.entries
    else .error "read_dir: No such file or directory"

/-- Observable effects accumulated by the entry loop: the moves
performed (file name, destination subdirectory) and the file names
printed by line 113. -/
structure ScanSt where
  moves : List (Str × Str)
  plog : List Str
deriving DecidableEq

/-- The body of the entry loop (`main.rs` lines 107-128) for one entry:
propagate an `entry?`/`metadata()?` failure; for a file, print its
name, compute the extension, test the line-121 condition, look the
extension up in the routing table, and rename on success.  On error the
effects already performed are kept. -/
def processEntry (relevant_extensions ignore_extensions : List Str)
    (st : ScanSt) (e : Entry) : ScanSt × Option Err :=
  match e.accessErr with
  | some err => (st, some err)
  | none =>
    if e.is_file then
      let st1 : ScanSt := { st with plog := st.plog ++ [e.name] }
      let extension := extOf e.name
      if moveCondition relevant_extensions ignore_extensions extension then
        match lookupExt extension extension_mapping with
        | some target_dir =>
          match e.renameErr with
          | some err => (st1, some err)
          | none => ({ st1 with moves := st1.moves ++ [(e.name, target_dir)] }, none)
        | none => (st1, none)
      else (st1, none)
    else (st, none)

/-- The entry loop of `main.rs` lines 107-128: process entries in
order, stopping at the first error (the `?` operators). -/
def scan (relevant_extensions ignore_extensions : List Str)
    (st : ScanSt) : List Entry → ScanSt × Option Err
  | [] => (st, none)
  | e :: es =>
    match processEntry relevant_extensions ignore_extensions st e with
    | (st1, none) => scan relevant_extensions ignore_extensions st1 es
    | (st1, some err) => (st1, some err)

/-- The observable outcome of one `tidyup()` call: final filesystem
state, creation attempts, moves, per-file progress lines (line 113),
and whether the usage text was printed. -/
structure RunResult where
  fs : Fs
  createAttempts : List Str
  moves : List (Str × Str)
  plog : List Str
  usagePrinted : Bool
deriving DecidableEq

/-- The engine part of `tidyup` (`main.rs` lines 89-130) run on a
parsed configuration: provisioning, enumeration, entry loop, each
aborting the run via `?` on its first error. -/
def runTidy (cfg : Config) (env : Env) : RunResult × Option Err :=
  let fs0 : Fs := { rootExists := env.rootExists, subdirs := env.subdirs0 }
  match provision env fs0 mappingDirs with
  | ((fs1, atts), some e) =>
    ({ fs := fs1, createAttempts := atts, moves := [], plog := [],
       usagePrinted := false }, some e)
  | ((fs1, atts), none) =>
    match read_dir env fs1 with
    | .error e =>
      ({ fs := fs1, createAttempts := atts, moves := [], plog := [],
         usagePrinted := false }, some e)
    | .ok entries =>
      match scan cfg.relevant_extensions cfg.ignore_extensions
          { moves := [], plog := [] } entries with
      | (st, r) =>
        ({ fs := fs1, createAttempts := atts, moves := st.moves,
           plog := st.plog, usagePrinted := false }, r)

/-- The whole `tidyup()` function (`main.rs` lines 37-131): parse the
arguments (those after the program name); the usage and help exits
return `Ok(())` having touched nothing, otherwise the engine runs. -/
def tidyup (args : List Str) (env : Env) : RunResult × Option Err :=
  match parseArgs args defaultConfig with
  | .ok cfg => runTidy cfg env
  | .usageExit =>
    ({ fs := { rootExists := env.rootExists, subdirs := env.subdirs0 },
       createAttempts := [], moves := [], plog := [], usagePrinted := true },
     none)
  | .helpExit =>
    ({ fs := { rootExists := env.rootExists, subdirs := env.subdirs0 },
       createAttempts := [], moves := [], plog := [], usagePrinted := true },
     none)

/-- The final report of `main` (`main.rs` lines 133-139). -/
inductive Report where
  | finished
  | failed (e : Err)
deriving DecidableEq

/-- `main` (`main.rs` lines 133-139): "Tidyup finished." on `Ok`, the
failure message on `Err`. -/
def mainRun (args : List Str) (env : Env) : Report :=
  match (tidyup args env).2 with
  | none => .finished
  | some e => .failed e

/-- Modelled from the spec's words, for comparison with the loop body:
the move a directory entry is expected to undergo — a file meeting the
four eligibility conditions goes to its routing-table destination,
everything else stays put. -/
def specMoveOf (relevant ignore : List Str) (e : Entry) : Option (Str × Str) :=
  if e.is_file && specEligible relevant ignore (extOf e.name) then
    (lookupExt (extOf e.name) extension_mapping).map (fun sub => (e.name, sub))
  else none

/-! ## Helper lemmas -/

lemma listContains_iff (l : List Str) (x : Str) :
    listContains l x = true ↔ x ∈ l := by
  induction l with
  | nil => simp [listContains]
  | cons y ys ih =>
    by_cases h : y = x
    · simp [listContains, h]
    · simpa [listContains, h, Ne.symm h] using ih

lemma listContains_eq_false_iff (l : List Str) (x : Str) :
    listContains l x = false ↔ x ∉ l := by
  rw [← Bool.not_eq_true, not_iff_not]
  exact listContains_iff l x

/-- The code's line-121 condition combined with the table lookup agrees
with the spec's four-condition eligibility test. -/
lemma moveCondition_lookup_eq_specEligible (relevant ignore : List Str)
    (ext : Str) :
    (moveCondition relevant ignore ext &&
      (lookupExt ext extension_mapping).isSome) =
      specEligible relevant ignore ext := by
  unfold moveCondition specEligible
  cases hle : lookupExt ext extension_mapping <;>
    cases hre : relevant <;> cases hie : ignore <;> cases ext <;>
      simp [List.isEmpty, listContains]

lemma moveCondition_eq_false_of_ignored (relevant ignore : List Str)
    (ext : Str) (h : ext ∈ ignore) :
    moveCondition relevant ignore ext = false := by
  unfold moveCondition
  have h1 : listContains ignore ext = true := (listContains_iff _ _).mpr h
  have h2 : ignore.isEmpty = false := by
    cases ignore
    · simp at h
    · simp [List.isEmpty]
  simp [h1, h2]

lemma lookupExt_isSome_iff (ext : Str) :
    (lookupExt ext extension_mapping).isSome = true ↔
      ext = strPng ∨ ext = strJpg ∨ ext = strJpeg ∨ ext = strPy ∨ ext = strCpp := by
  by_cases h1 : ext = strPng
  · subst h1; decide
  by_cases h2 : ext = strJpg
  · subst h2; decide
  by_cases h3 : ext = strJpeg
  · subst h3; decide
  by_cases h4 : ext = strPy
  · subst h4; decide
  by_cases h5 : ext = strCpp
  · subst h5; decide
  simp [extension_mapping, lookupExt, h1, h2, h3, h4, h5]

/-- Effect of the loop body on one clean entry (no injected failures):
no error, the file name appended to the progress log when the entry is
a file, and exactly the spec-eligible move appended. -/
lemma processEntry_clean (relevant ignore : List Str) (st : ScanSt)
    (e : Entry) (ha : e.accessErr = none) (hr : e.renameErr = none) :
    processEntry relevant ignore st e =
      ({ moves := st.moves ++ (specMoveOf relevant ignore e).toList,
         plog := st.plog ++ (if e.is_file then [e.name] else []) }, none) := by
  unfold processEntry specMoveOf
  rw [ha]
  cases hf : e.is_file with
  | false => simp
  | true =>
    simp only [if_pos rfl, Bool.true_and]
    by_cases hmc : moveCondition relevant ignore (extOf e.name) = true
    · have hspec := moveCondition_lookup_eq_specEligible relevant ignore (extOf e.name)
      cases hlk : lookupExt (extOf e.name) extension_mapping with
      | some sub =>
        rw [hlk, hmc] at hspec
        simp only [Option.isSome_some, Bool.true_and] at hspec
        simp [hmc, hlk, hr, ← hspec]
      | none =>
        rw [hlk, hmc] at hspec
        simp only [Option.isSome_none, Bool.and_false] at hspec
        simp [hmc, hlk, ← hspec]
    · have hspec := moveCondition_lookup_eq_specEligible relevant ignore (extOf e.name)
      rw [Bool.not_eq_true] at hmc
      rw [hmc] at hspec
      simp only [Bool.false_and] at hspec
      simp [hmc, ← hspec]

/-- Effect of the whole entry loop on clean entries: no error, progress
log of the files in order, and exactly the spec-eligible moves in
order. -/
lemma scan_clean (relevant ignore : List Str) (st : ScanSt)
    (es : List Entry) (h : ∀ e ∈ es, e.accessErr = none ∧ e.renameErr = none) :
    scan relevant ignore st es =
      ({ moves := st.moves ++ es.filterMap (specMoveOf relevant ignore),
         plog := st.plog ++ (es.filter (fun e => e.is_file)).map (fun e => e.name) },
       none) := by
  induction es generalizing st with
  | nil => simp [scan]
  | cons e es ih =>
    have he := h e (List.mem_cons_self e es)
    have hes : ∀ x ∈ es, x.accessErr = none ∧ x.renameErr = none :=
      fun x hx => h x (List.mem_cons_of_mem e hx)
    rw [scan, processEntry_clean relevant ignore st e he.1 he.2]
    simp only []
    rw [ih _ hes]
    cases hsm : specMoveOf relevant ignore e with
    | some m =>
      have hf : e.is_file = true := by
        by_contra hc
        rw [Bool.not_eq_true] at hc
        simp [specMoveOf, hc] at hsm
      simp [List.filterMap_cons, hsm, hf]
    | none =>
      cases hf : e.is_file <;> simp [List.filterMap_cons, hsm, hf]

/-- The loop body either leaves the recorded moves unchanged or
appends exactly one move passing the line-121 condition and the table
lookup. -/
lemma processEntry_moves (relevant ignore : List Str) (st : ScanSt)
    (e : Entry) :
    (processEntry relevant ignore st e).1.moves = st.moves ∨
      ∃ sub, moveCondition relevant ignore (extOf e.name) = true ∧
        lookupExt (extOf e.name) extension_mapping = some sub ∧
        (processEntry relevant ignore st e).1.moves = st.moves ++ [(e.name, sub)] := by
  unfold processEntry
  cases e.accessErr with
  | some err => exact Or.inl rfl
  | none =>
    cases hf : e.is_file with
    | false => simp
    | true =>
      by_cases hmc : moveCondition relevant ignore (extOf e.name) = true
      · cases hlk : lookupExt (extOf e.name) extension_mapping with
        | some sub =>
          cases hr : e.renameErr with
          | some err => simp [hmc, hlk, hr]
          | none =>
            refine Or.inr ⟨sub, hmc, rfl, ?_⟩
            simp [hmc, hlk, hr]
        | none => simp [hmc, hlk]
      · rw [Bool.not_eq_true] at hmc
        simp [hmc]

/-- Any move recorded by the loop body beyond those already recorded
satisfies the line-121 condition and the table lookup. -/
lemma processEntry_moves_sub (relevant ignore : List Str) (st : ScanSt)
    (e : Entry) (p : Str × Str)
    (hp : p ∈ (processEntry relevant ignore st e).1.moves) :
    p ∈ st.moves ∨
      (moveCondition relevant ignore (extOf p.1) = true ∧
        lookupExt (extOf p.1) extension_mapping = some p.2) := by
  rcases processEntry_moves relevant ignore st e with h | ⟨sub, hmc, hlk, h⟩
  · rw [h] at hp
    exact Or.inl hp
  · rw [h] at hp
    rcases List.mem_append.mp hp with hp | hp
    · exact Or.inl hp
    · rcases List.mem_singleton.mp hp with rfl
      exact Or.inr ⟨hmc, hlk⟩

/-- Any move recorded by the entry loop beyond those already recorded
satisfies the line-121 condition and the table lookup — whether or not
the loop ended in an error. -/
lemma scan_moves_sub (relevant ignore : List Str) (st : ScanSt)
    (es : List Entry) (p : Str × Str)
    (hp : p ∈ (scan relevant ignore st es).1.moves) :
    p ∈ st.moves ∨
      (moveCondition relevant ignore (extOf p.1) = true ∧
        lookupExt (extOf p.1) extension_mapping = some p.2) := by
  induction es generalizing st with
  | nil => simp [scan] at hp; exact Or.inl hp
  | cons e es ih =>
    rw [scan] at hp
    cases hpe : processEntry relevant ignore st e with
    | mk st1 r =>
      have hsub := processEntry_moves_sub relevant ignore st e p
      rw [hpe] at hsub hp
      cases r with
      | none =>
        rcases ih st1 hp with h | h
        · exact hsub h
        · exact Or.inr h
      | some err => exact hsub hp

lemma provision_all_present (env : Env) (fs : Fs) (ds : List Str)
    (h : ∀ d ∈ ds, dirExists fs d = true) :
    provision env fs ds = ((fs, []), none) := by
  induction ds with
  | nil => rfl
  | cons d ds ih =>
    rw [provision, if_pos (h d (List.mem_cons_self d ds))]
    exact ih (fun x hx => h x (List.mem_cons_of_mem d hx))

/-- When no creation error is injected and the target directory exists,
provisioning succeeds; the resulting subdirectory set is the union of
the initial one with the targets, and only absent targets had their
creation attempted. -/
lemma provision_ok (env : Env) (ds : List Str) :
    ∀ fs : Fs, (∀ d, env.createErr d = none) → fs.rootExists = true →
    ∃ fs1 atts, provision env fs ds = ((fs1, atts), none) ∧
      fs1.rootExists = true ∧
      (∀ x, x ∈ fs1.subdirs ↔ x ∈ fs.subdirs ∨ x ∈ ds) ∧
      (∀ d ∈ atts, d ∉ fs.subdirs) := by
  induction ds with
  | nil =>
    intro fs hc hr
    exact ⟨fs, [], rfl, hr, by simp, by simp⟩
  | cons d ds ih =>
    intro fs hc hr
    by_cases hd : dirExists fs d = true
    · obtain ⟨fs1, atts, heq, h1, h2, h3⟩ := ih fs hc hr
      have hdm : d ∈ fs.subdirs := by
        unfold dirExists at hd
        exact (listContains_iff _ _).mp (Bool.and_elim_right hd)
      refine ⟨fs1, atts, ?_, h1, ?_, h3⟩
      · rw [provision, if_pos hd, heq]
      · intro x
        rw [h2 x, List.mem_cons]
        constructor
        · rintro (h | h)
          · exact Or.inl h
          · exact Or.inr (Or.inr h)
        · rintro (h | h | h)
          · exact Or.inl h
          · exact Or.inl (h ▸ hdm)
          · exact Or.inr h
    · have hdf : listContains fs.subdirs d = false := by
        unfold dirExists at hd
        rw [hr] at hd
        simpa using hd
      have hdm : d ∉ fs.subdirs := (listContains_eq_false_iff _ _).mp hdf
      have hcd : create_dir env fs d =
          .ok { fs with subdirs := fs.subdirs ++ [d] } := by
        unfold create_dir
        rw [hc d, hr]
        rfl
      obtain ⟨fs1, atts, heq, h1, h2, h3⟩ :=
        ih { fs with subdirs := fs.subdirs ++ [d] } hc hr
      refine ⟨fs1, d :: atts, ?_, h1, ?_, ?_⟩
      · simp only [provision, if_neg hd, hcd, heq]
      · intro x
        rw [h2 x, List.mem_cons]
        simp only [List.mem_append, List.mem_singleton]
        tauto
      · intro y hy
        rcases List.mem_cons.mp hy with rfl | hy
        · exact hdm
        · intro hcon
          exact h3 y hy (List.mem_append.mpr (Or.inl hcon))

lemma afterLastDot_eq_none_iff (cs : Str) :
    afterLastDot cs = none ↔ 46 ∉ cs := by
  induction cs with
  | nil => simp [afterLastDot]
  | cons c cs ih =>
    rw [afterLastDot]
    cases h : afterLastDot cs with
    | some r =>
      have : 46 ∈ cs := by
        by_contra hcon
        rw [ih.mpr hcon] at h
        exact Option.noConfusion h
      simp [this]
    | none =>
      by_cases hc : c = 46
      · simp [hc]
      · simp [hc, Ne.symm hc, ih.mp h]

lemma afterLastDot_no_dot (cs : Str) :
    ∀ r, afterLastDot cs = some r → 46 ∉ r := by
  induction cs with
  | nil => intro r h; simp [afterLastDot] at h
  | cons c cs ih =>
    intro r h
    rw [afterLastDot] at h
    cases h2 : afterLastDot cs with
    | some r2 =>
      rw [h2] at h
      injection h with h
      exact h ▸ ih r2 h2
    | none =>
      rw [h2] at h
      by_cases hc : c = 46
      · rw [if_pos hc] at h
        injection h with h
        exact h ▸ (afterLastDot_eq_none_iff cs).mp h2
      · rw [if_neg hc] at h
        exact Option.noConfusion h

lemma afterLastDot_getLast (cs : Str) :
    ∀ r, afterLastDot cs = some r → r ≠ [] → cs.getLast? = r.getLast? := by
  induction cs with
  | nil => intro r h; simp [afterLastDot] at h
  | cons c cs ih =>
    intro r h hr
    rw [afterLastDot] at h
    cases h2 : afterLastDot cs with
    | some r2 =>
      rw [h2] at h
      injection h with h
      subst h
      have hcs : cs ≠ [] := by
        rintro rfl
        simp [afterLastDot] at h2
      obtain ⟨c2, cs2, rfl⟩ := List.exists_cons_of_ne_nil hcs
      rw [List.getLast?_cons_cons]
      exact ih _ h2 hr
    | none =>
      rw [h2] at h
      by_cases hc : c = 46
      · rw [if_pos hc] at h
        injection h with h
        subst h
        obtain ⟨a, as, rfl⟩ := List.exists_cons_of_ne_nil hr
        rw [List.getLast?_cons_cons]
      · rw [if_neg hc] at h
        exact Option.noConfusion h

lemma afterLastDot_some_nil (cs : Str) (h : afterLastDot cs = some []) :
    cs.getLast? = some 46 := by
  induction cs with
  | nil => simp [afterLastDot] at h
  | cons c cs ih =>
    rw [afterLastDot] at h
    cases h2 : afterLastDot cs with
    | some r2 =>
      rw [h2] at h
      injection h with h
      subst h
      have hcs : cs ≠ [] := by
        rintro rfl
        simp [afterLastDot] at h2
      obtain ⟨c2, cs2, rfl⟩ := List.exists_cons_of_ne_nil hcs
      rw [List.getLast?_cons_cons]
      exact ih h2
    | none =>
      rw [h2] at h
      by_cases hc : c = 46
      · rw [if_pos hc] at h
        injection h with h
        subst h
        subst hc
        rfl
      · rw [if_neg hc] at h
        exact Option.noConfusion h

lemma asciiLower_not_upper (c : Nat) :
    ¬(65 ≤ asciiLower c ∧ asciiLower c ≤ 90) := by
  unfold asciiLower
  split <;> omega

lemma takeWhile_eq_self_of_all (p : Str → Bool) (l : List Str)
    (h : ∀ x ∈ l, p x = true) : l.takeWhile p = l := by
  induction l with
  | nil => rfl
  | cons a l ih =>
    simp [List.takeWhile_cons, h a (List.mem_cons_self a l),
      ih (fun x hx => h x (List.mem_cons_of_mem a hx))]

lemma dropWhile_eq_nil_of_all (p : Str → Bool) (l : List Str)
    (h : ∀ x ∈ l, p x = true) : l.dropWhile p = [] := by
  induction l with
  | nil => rfl
  | cons a l ih =>
    rw [List.dropWhile_cons, h a (List.mem_cons_self a l)]
    simp only [if_pos rfl]
    exact ih (fun x hx => h x (List.mem_cons_of_mem a hx))

lemma parseArgs_nil (cfg : Config) : parseArgs [] cfg = .ok cfg := by
  rw [parseArgs.eq_def]

lemma parseArgs_cons (a : Str) (rest : List Str) (cfg : Config) :
    parseArgs (a :: rest) cfg =
      (if a = strDShort ∨ a = strDLong then
        match rest with
        | v :: rest1 => parseArgs rest1 { cfg with dir_name := v }
        | [] => .usageExit
      else if a = strEShort ∨ a = strELong then
        parseArgs (rest.dropWhile (fun t => !startsWithDash t))
          { cfg with relevant_extensions :=
              cfg.relevant_extensions ++ rest.takeWhile (fun t => !startsWithDash t) }
      else if a = strIShort ∨ a = strILong then
        parseArgs (rest.dropWhile (fun t => !startsWithDash t))
          { cfg with ignore_extensions :=
              cfg.ignore_extensions ++ rest.takeWhile (fun t => !startsWithDash t) }
      else if a = strVShort ∨ a = strVLong then
        parseArgs rest { cfg with verbose := true }
      else if a = strHShort ∨ a = strHLong then .helpExit
      else .usageExit) := by
  rw [parseArgs.eq_def]

/-- The argument loop never makes `verbose` false: it starts `true`
(`main.rs` line 43) and `-v`/`--verbose` only ever sets it to `true`. -/
lemma parseArgs_verbose (args : List Str) (cfg : Config)
    (hv : cfg.verbose = true) :
    ∀ cfg1, parseArgs args cfg = .ok cfg1 → cfg1.verbose = true := by
  induction args, cfg using parseArgs.induct with
  | case1 cfg =>
    intro cfg1 h
    rw [parseArgs_nil] at h
    injection h with h
    exact h ▸ hv
  | case2 a cfg ha v rest1 ih =>
    intro cfg1 h
    rw [parseArgs_cons, if_pos ha] at h
    exact ih hv cfg1 h
  | case3 a cfg ha =>
    intro cfg1 h
    rw [parseArgs_cons, if_pos ha] at h
    exact ParseOutcome.noConfusion h
  | case4 a rest cfg hd he ih =>
    intro cfg1 h
    rw [parseArgs_cons, if_neg hd, if_pos he] at h
    exact ih hv cfg1 h
  | case5 a rest cfg hd he hi ih =>
    intro cfg1 h
    rw [parseArgs_cons, if_neg hd, if_neg he, if_pos hi] at h
    exact ih hv cfg1 h
  | case6 a rest cfg hd he hi hvflag ih =>
    intro cfg1 h
    rw [parseArgs_cons, if_neg hd, if_neg he, if_neg hi, if_pos hvflag] at h
    exact ih rfl cfg1 h
  | case7 a rest cfg hd he hi hvflag hh =>
    intro cfg1 h
    rw [parseArgs_cons, if_neg hd, if_neg he, if_neg hi, if_neg hvflag, if_pos hh] at h
    exact ParseOutcome.noConfusion h
  | case8 a rest cfg hd he hi hvflag hh =>
    intro cfg1 h
    rw [parseArgs_cons, if_neg hd, if_neg he, if_neg hi, if_neg hvflag, if_neg hh] at h
    exact ParseOutcome.noConfusion h

/-! ## Claims -/

/-- C1: For every directory entry that is a file, the file is moved if
and only if all four conditions hold — non-empty computed extension,
extension a key of the routing table, include set empty or containing
it, exclude set not containing it; an entry failing any condition is
left in place with no error.  The entry loop on failure-free entries
produces exactly the spec-eligible moves and no error. -/
theorem claim_C1_move_iff_eligible (relevant ignore : List Str)
    (es : List Entry)
    (h : ∀ e ∈ es, e.accessErr = none ∧ e.renameErr = none) :
    scan relevant ignore { moves := [], plog := [] } es =
      ({ moves := es.filterMap (specMoveOf relevant ignore),
         plog := (es.filter (fun e => e.is_file)).map (fun e => e.name) },
       none) := by
  rw [scan_clean relevant ignore _ es h]
  simp

/-- C1 witness: a directory with `a.png`, `b.txt` and a subdirectory
entry, no filters: exactly `a.png` moves to `images`. -/
theorem claim_C1_witness :
    scan [] [] { moves := [], plog := [] }
      [⟨[97, 46, 112, 110, 103], true, none, none⟩,
       ⟨[98, 46, 116, 120, 116], true, none, none⟩,
       ⟨[115, 117, 98], false, none, none⟩] =
      ({ moves := [([97, 46, 112, 110, 103], strImages)],
         plog := [[97, 46, 112, 110, 103], [98, 46, 116, 120, 116]] },
       none) := by
  have h := claim_C1_move_iff_eligible [] []
    [⟨[97, 46, 112, 110, 103], true, none, none⟩,
     ⟨[98, 46, 116, 120, 116], true, none, none⟩,
     ⟨[115, 117, 98], false, none, none⟩] (by decide)
  rw [h]
  decide

/-- C2 counterexample: the file name `.png` contains a `.` and does not
end in `.`, so the claim says its computed extension is the non-empty
`png` — the substring after the final dot — but the program computes
the empty extension for it (Rust `Path::extension` ignores a dot in the
first position). -/
theorem claim_C2_counterexample :
    extOf [46, 112, 110, 103] = [] ∧
      specExtension [46, 112, 110, 103] = [112, 110, 103] ∧
      specExtension [46, 112, 110, 103] ≠ [] := by
  decide

/-- C2 amended: the computed extension equals the lowercased substring
after the final `.` of the filename MINUS ITS FIRST CHARACTER (a dot in
first position never counts), and it is empty exactly when the
filename's tail contains no `.` or the filename ends in `.`; the names
`""` and `..` also yield an empty extension. -/
theorem claim_C2_amended :
    (∀ (c : Nat) (cs : Str), c :: cs ≠ [46, 46] →
      extOf (c :: cs) = specExtension cs ∧
        (extOf (c :: cs) = [] ↔ 46 ∉ cs ∨ (c :: cs).getLast? = some 46)) ∧
      extOf [] = [] ∧ extOf [46, 46] = [] := by
  refine ⟨?_, by decide, by decide⟩
  intro c cs hne
  have hre : rustExtension (c :: cs) = afterLastDot cs := by
    unfold rustExtension
    rw [if_neg hne]
  constructor
  · unfold extOf specExtension
    rw [hre]
  · unfold extOf
    rw [hre]
    cases h : afterLastDot cs with
    | none =>
      simp [(afterLastDot_eq_none_iff cs).mp h]
    | some r =>
      have hcs : cs ≠ [] := by
        rintro rfl
        simp [afterLastDot] at h
      obtain ⟨c2, cs2, rfl⟩ := List.exists_cons_of_ne_nil hcs
      have hdot : 46 ∈ c2 :: cs2 := by
        by_contra hcon
        rw [(afterLastDot_eq_none_iff _).mpr hcon] at h
        exact Option.noConfusion h
      cases r with
      | nil =>
        have hlast := afterLastDot_some_nil _ h
        simp only [Option.getD_some, List.map_nil, List.getLast?_cons_cons]
        simp [hlast]
      | cons a as =>
        have hnd := afterLastDot_no_dot _ _ h
        have hlast := afterLastDot_getLast _ _ h (by simp)
        simp only [Option.getD_some, List.getLast?_cons_cons, hlast]
        constructor
        · intro hcon
          exact absurd hcon (by simp)
        · rintro (hcon | hcon)
          · exact absurd hdot hcon
          · exfalso
            obtain ⟨hne2, heq⟩ :=
              List.mem_getLast?_eq_getLast (Option.mem_def.mpr hcon)
            exact hnd (heq ▸ List.getLast_mem hne2)

/-- C2 amended witness: `a.PNG` is not the special name `..`, and its
computed extension is the spec formula applied to its tail `.PNG`,
namely the lowercased `png`. -/
theorem claim_C2_amended_witness :
    ((97 : Nat) :: [46, 80, 78, 71] ≠ [46, 46]) ∧
      extOf (97 :: [46, 80, 78, 71]) = specExtension [46, 80, 78, 71] ∧
      specExtension [46, 80, 78, 71] = [112, 110, 103] :=
  ⟨by decide, (claim_C2_amended.1 97 [46, 80, 78, 71] (by decide)).1, by decide⟩

/-- C3: an extension present in both the include and the exclude set is
skipped — exclude wins: no move of a file whose computed extension is
in both lists is ever recorded by the entry loop. -/
theorem claim_C3_exclude_wins (relevant ignore : List Str)
    (es : List Entry) (name sub : Str)
    (_hinc : extOf name ∈ relevant) (hexc : extOf name ∈ ignore) :
    (name, sub) ∉ (scan relevant ignore { moves := [], plog := [] } es).1.moves := by
  intro hp
  rcases scan_moves_sub relevant ignore _ es (name, sub) hp with h | ⟨hmc, _⟩
  · simp at h
  · rw [moveCondition_eq_false_of_ignored relevant ignore (extOf name) hexc] at hmc
    exact Bool.noConfusion hmc

/-- C3 witness: include `{png, jpg}`, exclude `{jpg}`, directory with
`b.jpg`: `b.jpg` is not moved to `images`. -/
theorem claim_C3_witness :
    ([98, 46, 106, 112, 103], strImages) ∉
      (scan [strPng, strJpg] [strJpg] { moves := [], plog := [] }
        [⟨[98, 46, 106, 112, 103], true, none, none⟩]).1.moves :=
  claim_C3_exclude_wins [strPng, strJpg] [strJpg]
    [⟨[98, 46, 106, 112, 103], true, none, none⟩]
    [98, 46, 106, 112, 103] strImages (by decide) (by decide)

/-- C4: every filesystem operation failure is fatal.  (i) If the entry
loop reaches an entry whose operation fails, the run returns that first
error with exactly the effects accumulated so far — the remaining
entries, whatever they are, are never processed (the result does not
depend on them).  (ii) Likewise a directory-creation failure aborts
provisioning at that directory.  (iii) A directory-listing failure
after successful provisioning aborts the run with that error before
any entry is processed: no move and no progress line happens.
(iv) `main` reports the first error returned by `tidyup`. -/
theorem claim_C4_fail_fast :
    (∀ (relevant ignore : List Str) (st st1 st2 : ScanSt)
        (es1 es2 : List Entry) (e : Entry) (err : Err),
      scan relevant ignore st es1 = (st1, none) →
      processEntry relevant ignore st1 e = (st2, some err) →
      scan relevant ignore st (es1 ++ e :: es2) = (st2, some err)) ∧
    (∀ (env : Env) (fs fs1 : Fs) (ds1 ds2 : List Str) (d : Str)
        (atts : List Str) (err : Err),
      provision env fs ds1 = ((fs1, atts), none) →
      dirExists fs1 d = false →
      create_dir env fs1 d = .error err →
      provision env fs (ds1 ++ d :: ds2) = ((fs1, atts ++ [d]), some err)) ∧
    (∀ (cfg : Config) (env : Env) (fs1 : Fs) (atts : List Str) (e : Err),
      provision env { rootExists := env.rootExists, subdirs := env.subdirs0 }
          mappingDirs = ((fs1, atts), none) →
      env.listErr = some e →
      runTidy cfg env =
        ({ fs := fs1, createAttempts := atts, moves := [], plog := [],
           usagePrinted := false }, some e)) ∧
    (∀ (args : List Str) (env : Env) (res : RunResult) (e : Err),
      tidyup args env = (res, some e) → mainRun args env = .failed e) := by
  refine ⟨?_, ?_, ?_, ?_⟩
  · intro relevant ignore st st1 st2 es1 es2 e err h1 h2
    induction es1 generalizing st with
    | nil =>
      simp only [scan] at h1
      injection h1 with h1 hr
      subst h1
      rw [List.nil_append, scan, h2]
    | cons a es1 ih =>
      rw [List.cons_append, scan]
      rw [scan] at h1
      cases hpa : processEntry relevant ignore st a with
      | mk sta r =>
        rw [hpa] at h1
        cases r with
        | none => exact ih sta h1
        | some er => simp at h1
  · intro env fs fs1 ds1 ds2 d atts err h1 hd hcd
    induction ds1 generalizing fs atts with
    | nil =>
      simp only [provision] at h1
      injection h1 with h1 hr
      injection h1 with h1 ha
      subst h1
      subst ha
      rw [List.nil_append, provision, if_neg (by rw [hd]; exact Bool.false_ne_true), hcd]
      rfl
    | cons a ds1 ih =>
      rw [List.cons_append, provision]
      rw [provision] at h1
      by_cases hda : dirExists fs a = true
      · rw [if_pos hda] at h1 ⊢
        exact ih fs atts h1
      · rw [if_neg hda] at h1 ⊢
        cases hca : create_dir env fs a with
        | error e => rw [hca] at h1; simp at h1
        | ok fsa =>
          rw [hca] at h1
          simp only [] at h1 ⊢
          cases hp1 : provision env fsa ds1 with
          | mk p r =>
            obtain ⟨fs2, atts2⟩ := p
            rw [hp1] at h1
            simp only [Prod.mk.injEq] at h1
            obtain ⟨⟨rfl, rfl⟩, rfl⟩ := h1
            rw [ih fsa atts2 hp1]
            rfl
  · intro cfg env fs1 atts e hprov hlist
    have hrd : read_dir env fs1 = .error e := by
      unfold read_dir
      rw [hlist]
    simp only [runTidy, hprov, hrd]
  · intro args env res e h
    simp [mainRun, h]

/-- C4 witness: a metadata failure on the first entry aborts the scan
before the second entry; a creation failure on `python` aborts
provisioning after `images`; an unreadable target directory aborts the
run after provisioning with no entry processed; `main` reports the
error of such a run. -/
theorem claim_C4_witness :
    scan [] [] { moves := [], plog := [] }
        ([⟨[97], true, some "boom", none⟩] ++
          ⟨[98, 46, 112, 110, 103], true, none, none⟩ :: []) =
      ({ moves := [], plog := [] }, some "boom") ∧
    provision
        { rootExists := true, subdirs0 := [],
          createErr := fun d => if d = strPython then some "denied" else none,
          listErr := none, entries := [] }
        { rootExists := true, subdirs := [] }
        ([strImages] ++ strPython :: [strCxx]) =
      (({ rootExists := true, subdirs := [strImages] },
        [strImages] ++ [strPython]), some "denied") ∧
    runTidy defaultConfig
        { rootExists := true, subdirs0 := [], createErr := fun _ => none,
          listErr := some "unreadable",
          entries := [⟨[97, 46, 112, 110, 103], true, none, none⟩] } =
      ({ fs := { rootExists := true, subdirs := [strImages, strPython, strCxx] },
         createAttempts := [strImages, strPython, strCxx], moves := [],
         plog := [], usagePrinted := false }, some "unreadable") ∧
    mainRun []
        { rootExists := true, subdirs0 := [],
          createErr := fun d => if d = strPython then some "denied" else none,
          listErr := none, entries := [] } = .failed "denied" := by
  refine ⟨?_, ?_, ?_, ?_⟩
  · exact claim_C4_fail_fast.1 [] [] { moves := [], plog := [] }
      { moves := [], plog := [] } { moves := [], plog := [] } []
      [⟨[98, 46, 112, 110, 103], true, none, none⟩] ⟨[97], true, some "boom", none⟩
      "boom" (by decide) (by decide)
  · exact claim_C4_fail_fast.2.1
      { rootExists := true, subdirs0 := [],
        createErr := fun d => if d = strPython then some "denied" else none,
        listErr := none, entries := [] }
      { rootExists := true, subdirs := [] }
      { rootExists := true, subdirs := [strImages] }
      [strImages] [strCxx] strPython [strImages] "denied"
      (by decide) (by decide) rfl
  · exact claim_C4_fail_fast.2.2.1 defaultConfig
      { rootExists := true, subdirs0 := [], createErr := fun _ => none,
        listErr := some "unreadable",
        entries := [⟨[97, 46, 112, 110, 103], true, none, none⟩] }
      { rootExists := true, subdirs := [strImages, strPython, strCxx] }
      [strImages, strPython, strCxx] "unreadable" (by decide) rfl
  · exact claim_C4_fail_fast.2.2.2 []
      { rootExists := true, subdirs0 := [],
        createErr := fun d => if d = strPython then some "denied" else none,
        listErr := none, entries := [] }
      { fs := { rootExists := true, subdirs := [strImages] },
        createAttempts := [strImages, strPython], moves := [], plog := [],
        usagePrinted := false } "denied"
      (by simp only [tidyup, parseArgs_nil]; decide)

/-- C5 counterexample: with the target directory absent, the run does
terminate with a fatal error — but a directory-creation attempt IS
made first (the error is that attempt failing), contradicting the
claim that the error precedes any directory-creation attempt. -/
theorem claim_C5_counterexample :
    (tidyup []
        { rootExists := false, subdirs0 := [], createErr := fun _ => none,
          listErr := none, entries := [] }).2.isSome = true ∧
      (tidyup []
          { rootExists := false, subdirs0 := [], createErr := fun _ => none,
            listErr := none, entries := [] }).1.createAttempts ≠ [] := by
  simp only [tidyup, parseArgs_nil]
  decide

/-- C5 amended: when the target directory does not exist, the run
terminates with a fatal IOError at the FIRST directory-creation
attempt — exactly one creation is attempted, and no directory listing,
no file move and no progress output happens. -/
theorem claim_C5_amended (cfg : Config) (env : Env)
    (h : env.rootExists = false) :
    ∃ e, runTidy cfg env =
      ({ fs := { rootExists := false, subdirs := env.subdirs0 },
         createAttempts := [strImages], moves := [], plog := [],
         usagePrinted := false }, some e) := by
  have hfs : ({ rootExists := env.rootExists, subdirs := env.subdirs0 } : Fs) =
      { rootExists := false, subdirs := env.subdirs0 } := by rw [h]
  have hde : dirExists { rootExists := false, subdirs := env.subdirs0 } strImages =
      false := by
    simp [dirExists]
  have hmd : mappingDirs =
      strImages :: [strImages, strImages, strPython, strCxx] := by decide
  cases hce : env.createErr strImages with
  | some e =>
    refine ⟨e, ?_⟩
    have hcd : create_dir env { rootExists := false, subdirs := env.subdirs0 }
        strImages = .error e := by
      unfold create_dir
      rw [hce]
    simp only [runTidy, hfs, hmd, provision, hde, Bool.false_eq_true, if_false, hcd]
  | none =>
    refine ⟨"create_dir: No such file or directory", ?_⟩
    have hcd : create_dir env { rootExists := false, subdirs := env.subdirs0 }
        strImages = .error "create_dir: No such file or directory" := by
      unfold create_dir
      rw [hce]
      rfl
    simp only [runTidy, hfs, hmd, provision, hde, Bool.false_eq_true, if_false, hcd]

/-- C5 amended witness: a concrete missing-directory run errors with
exactly one creation attempt and no other effect. -/
theorem claim_C5_amended_witness :
    (({ rootExists := false, subdirs0 := [strPng], createErr := fun _ => none,
        listErr := none,
        entries := [⟨[97, 46, 112, 110, 103], true, none, none⟩] } : Env).rootExists
      = false) ∧
    ∃ e, runTidy defaultConfig
        { rootExists := false, subdirs0 := [strPng], createErr := fun _ => none,
          listErr := none,
          entries := [⟨[97, 46, 112, 110, 103], true, none, none⟩] } =
      ({ fs := { rootExists := false, subdirs := [strPng] },
         createAttempts := [strImages], moves := [], plog := [],
         usagePrinted := false }, some e) :=
  ⟨rfl,
    claim_C5_amended defaultConfig
      { rootExists := false, subdirs0 := [strPng], createErr := fun _ => none,
        listErr := none,
        entries := [⟨[97, 46, 112, 110, 103], true, none, none⟩] } rfl⟩

/-- C7: provisioning is idempotent — on a directory that exists with no
injected failures, provisioning succeeds, creation is attempted only
for initially absent subdirectories, and a second provisioning run on
the result changes nothing, attempts nothing and raises no error. -/
theorem claim_C7_provision_idempotent (env : Env) (fs : Fs)
    (hc : ∀ d, env.createErr d = none) (hr : fs.rootExists = true) :
    ∃ fs1 atts,
      provision env fs mappingDirs = ((fs1, atts), none) ∧
      (∀ x, x ∈ fs1.subdirs ↔ x ∈ fs.subdirs ∨ x ∈ mappingDirs) ∧
      (∀ d ∈ atts, d ∉ fs.subdirs) ∧
      provision env fs1 mappingDirs = ((fs1, []), none) := by
  obtain ⟨fs1, atts, heq, h1, h2, h3⟩ := provision_ok env mappingDirs fs hc hr
  refine ⟨fs1, atts, heq, h2, h3, ?_⟩
  apply provision_all_present
  intro d hd
  have hmem : d ∈ fs1.subdirs := (h2 d).mpr (Or.inr hd)
  simp [dirExists, h1, (listContains_iff fs1.subdirs d).mpr hmem]

/-- C7 witness: on a directory already holding `images`, provisioning
creates the remaining two folders only, and a second run is a no-op. -/
theorem claim_C7_witness :
    ((⟨true, [strImages]⟩ : Fs).rootExists = true) ∧
    ∃ fs1 atts,
      provision
          { rootExists := true, subdirs0 := [strImages],
            createErr := fun _ => none, listErr := none, entries := [] }
          ⟨true, [strImages]⟩ mappingDirs = ((fs1, atts), none) ∧
      (∀ x, x ∈ fs1.subdirs ↔ x ∈ (⟨true, [strImages]⟩ : Fs).subdirs ∨
        x ∈ mappingDirs) ∧
      (∀ d ∈ atts, d ∉ (⟨true, [strImages]⟩ : Fs).subdirs) ∧
      provision
          { rootExists := true, subdirs0 := [strImages],
            createErr := fun _ => none, listErr := none, entries := [] }
          fs1 mappingDirs = ((fs1, []), none) :=
  ⟨rfl,
    claim_C7_provision_idempotent
      { rootExists := true, subdirs0 := [strImages],
        createErr := fun _ => none, listErr := none, entries := [] }
      ⟨true, [strImages]⟩ (fun _ => rfl) rfl⟩

lemma extOf_no_upper (name : Str) : ∀ c ∈ extOf name, ¬(65 ≤ c ∧ c ≤ 90) := by
  intro c hc
  obtain ⟨c0, _, rfl⟩ := List.mem_map.mp hc
  exact asciiLower_not_upper c0

/-- C6: a processed filename is emitted exactly when `verbose` is
active — which it always is: (i) every successfully parsed
configuration has `verbose = true` (it starts `true` and `-v` only sets
it `true`); (ii) in a failure-free run each file entry's name is
emitted, so emission holds iff the configuration's verbosity does;
(iii) the verbosity field has no effect whatsoever on the run's moves,
errors or output. -/
theorem claim_C6_verbose_diagnostic_only :
    (∀ (args : List Str) (cfg : Config),
      parseArgs args defaultConfig = .ok cfg → cfg.verbose = true) ∧
    (∀ (args : List Str) (cfg : Config) (env : Env) (e : Entry),
      parseArgs args defaultConfig = .ok cfg →
      (∀ x ∈ env.entries, x.accessErr = none ∧ x.renameErr = none) →
      e ∈ env.entries → e.is_file = true →
      env.rootExists = true → env.listErr = none →
      (∀ d, env.createErr d = none) →
      (e.name ∈ (runTidy cfg env).1.plog ↔ cfg.verbose = true)) ∧
    (∀ (cfg : Config) (env : Env) (b : Bool),
      runTidy { cfg with verbose := b } env = runTidy cfg env) := by
  refine ⟨?_, ?_, ?_⟩
  · intro args cfg h
    exact parseArgs_verbose args defaultConfig rfl cfg h
  · intro args cfg env e hparse hclean he hf hroot hlist hcreate
    have hv : cfg.verbose = true := parseArgs_verbose args defaultConfig rfl cfg hparse
    rw [hv]
    have hfs0 : ({ rootExists := env.rootExists, subdirs := env.subdirs0 } : Fs).rootExists
        = true := hroot
    obtain ⟨fs1, atts, heq, h1, _, _⟩ :=
      provision_ok env mappingDirs { rootExists := env.rootExists, subdirs := env.subdirs0 }
        hcreate hfs0
    have hrd : read_dir env fs1 = .ok env.entries := by
      simp [read_dir, hlist, h1]
    have hscan := scan_clean cfg.relevant_extensions cfg.ignore_extensions
      { moves := [], plog := [] } env.entries hclean
    have hrun : (runTidy cfg env).1.plog =
        (env.entries.filter (fun x => x.is_file)).map (fun x => x.name) := by
      simp only [runTidy, heq, hrd, hscan]
      simp
    rw [hrun]
    simp only [iff_true]
    exact List.mem_map_of_mem _ (List.mem_filter.mpr ⟨he, hf⟩)
  · intro cfg env b
    rfl

/-- C6 witness: running with `-v` on a directory holding `a.png`, the
parsed configuration is the default one (whose `verbose` is `true`)
and `a.png`'s progress line is emitted iff that verbosity is active. -/
theorem claim_C6_witness :
    ([97, 46, 112, 110, 103] : Str) ∈
      (runTidy defaultConfig
        { rootExists := true, subdirs0 := [], createErr := fun _ => none,
          listErr := none,
          entries := [⟨[97, 46, 112, 110, 103], true, none, none⟩] }).1.plog ↔
      defaultConfig.verbose = true :=
  claim_C6_verbose_diagnostic_only.2.1 [strVShort] defaultConfig
    { rootExists := true, subdirs0 := [], createErr := fun _ => none,
      listErr := none,
      entries := [⟨[97, 46, 112, 110, 103], true, none, none⟩] }
    ⟨[97, 46, 112, 110, 103], true, none, none⟩
    (by rw [parseArgs_cons, if_neg (by decide), if_neg (by decide),
          if_neg (by decide), if_pos (Or.inl rfl), parseArgs_nil]
        rfl)
    (by decide) (by decide) rfl rfl rfl (fun _ => rfl)

/-- C8: an argument list whose parse hits an unknown flag, or
`-d`/`--directory` as the last token (missing its value), makes the
program print the usage text and terminate as a success — `Ok(())`,
reported as "Tidyup finished." — with no filesystem action at all. -/
theorem claim_C8_usage_is_success :
    (∀ (a : Str) (rest : List Str) (cfg : Config),
      a ≠ strDShort → a ≠ strDLong → a ≠ strEShort → a ≠ strELong →
      a ≠ strIShort → a ≠ strILong → a ≠ strVShort → a ≠ strVLong →
      a ≠ strHShort → a ≠ strHLong →
      parseArgs (a :: rest) cfg = .usageExit) ∧
    (∀ cfg : Config, parseArgs [strDShort] cfg = .usageExit ∧
      parseArgs [strDLong] cfg = .usageExit) ∧
    (∀ (args : List Str) (env : Env),
      parseArgs args defaultConfig = .usageExit →
      tidyup args env =
        ({ fs := { rootExists := env.rootExists, subdirs := env.subdirs0 },
           createAttempts := [], moves := [], plog := [],
           usagePrinted := true }, none) ∧
      mainRun args env = .finished) := by
  refine ⟨?_, ?_, ?_⟩
  · intro a rest cfg hd1 hd2 he1 he2 hi1 hi2 hv1 hv2 hh1 hh2
    rw [parseArgs_cons, if_neg (not_or.mpr ⟨hd1, hd2⟩),
      if_neg (not_or.mpr ⟨he1, he2⟩), if_neg (not_or.mpr ⟨hi1, hi2⟩),
      if_neg (not_or.mpr ⟨hv1, hv2⟩), if_neg (not_or.mpr ⟨hh1, hh2⟩)]
  · intro cfg
    constructor
    · rw [parseArgs_cons, if_pos (Or.inl rfl)]
    · rw [parseArgs_cons, if_pos (Or.inr rfl)]
  · intro args env hp
    constructor
    · simp [tidyup, hp]
    · simp [mainRun, tidyup, hp]

/-- C8 witness: `-x` is unknown, so `tidyup -x` prints usage, performs
no filesystem action and finishes successfully. -/
theorem claim_C8_witness :
    parseArgs [[45, 120]] defaultConfig = .usageExit ∧
    tidyup [[45, 120]]
        { rootExists := true, subdirs0 := [], createErr := fun _ => none,
          listErr := none,
          entries := [⟨[97, 46, 112, 110, 103], true, none, none⟩] } =
      ({ fs := { rootExists := true, subdirs := [] },
         createAttempts := [], moves := [], plog := [],
         usagePrinted := true }, none) ∧
    mainRun [[45, 120]]
        { rootExists := true, subdirs0 := [], createErr := fun _ => none,
          listErr := none,
          entries := [⟨[97, 46, 112, 110, 103], true, none, none⟩] } =
      .finished := by
  have hp : parseArgs [[45, 120]] defaultConfig = .usageExit :=
    claim_C8_usage_is_success.1 [45, 120] [] defaultConfig (by decide) (by decide)
      (by decide) (by decide) (by decide) (by decide) (by decide) (by decide)
      (by decide) (by decide)
  have h2 := claim_C8_usage_is_success.2.2 [[45, 120]]
    { rootExists := true, subdirs0 := [], createErr := fun _ => none,
      listErr := none,
      entries := [⟨[97, 46, 112, 110, 103], true, none, none⟩] } hp
  exact ⟨hp, h2.1, h2.2⟩

/-- C9: the routing table's keys are exactly `png`, `jpg`, `jpeg`
(to `images`), `py` (to `python`) and `cpp` (to `c++`), and a file
whose computed extension is any other string is never moved, whatever
the include and exclude filters. -/
theorem claim_C9_routing_table :
    (∀ ext : Str, (lookupExt ext extension_mapping).isSome = true ↔
      ext = strPng ∨ ext = strJpg ∨ ext = strJpeg ∨ ext = strPy ∨ ext = strCpp) ∧
    lookupExt strPng extension_mapping = some strImages ∧
    lookupExt strJpg extension_mapping = some strImages ∧
    lookupExt strJpeg extension_mapping = some strImages ∧
    lookupExt strPy extension_mapping = some strPython ∧
    lookupExt strCpp extension_mapping = some strCxx ∧
    (∀ (relevant ignore : List Str) (es : List Entry) (name sub : Str),
      ¬(extOf name = strPng ∨ extOf name = strJpg ∨ extOf name = strJpeg ∨
        extOf name = strPy ∨ extOf name = strCpp) →
      (name, sub) ∉ (scan relevant ignore { moves := [], plog := [] } es).1.moves) := by
  refine ⟨lookupExt_isSome_iff, by decide, by decide, by decide, by decide, by decide, ?_⟩
  intro relevant ignore es name sub h hp
  rcases scan_moves_sub relevant ignore _ es (name, sub) hp with hmem | ⟨_, hlk⟩
  · simp at hmem
  · exact h ((lookupExt_isSome_iff (extOf name)).mp (by rw [hlk]; rfl))

/-- C9 witness: `a.txt` has extension `txt`, not a key of the table,
so it is never moved to `images`. -/
theorem claim_C9_witness :
    ([97, 46, 116, 120, 116], strImages) ∉
      (scan [] [] { moves := [], plog := [] }
        [⟨[97, 46, 116, 120, 116], true, none, none⟩]).1.moves :=
  claim_C9_routing_table.2.2.2.2.2.2 [] []
    [⟨[97, 46, 116, 120, 116], true, none, none⟩]
    [97, 46, 116, 120, 116] strImages (by decide)

/-- C10: include and exclude tokens are stored verbatim (the parser
appends the raw tokens), every computed extension is ASCII-lowercased,
hence a filter token containing an (ASCII) uppercase letter equals no
computed extension — and with include list `{PNG}` no file is ever
moved. -/
theorem claim_C10_uppercase_filters_never_match :
    (∀ (toks : List Str) (cfg : Config),
      (∀ t ∈ toks, startsWithDash t = false) →
      parseArgs (strEShort :: toks) cfg =
        .ok { cfg with relevant_extensions := cfg.relevant_extensions ++ toks } ∧
      parseArgs (strIShort :: toks) cfg =
        .ok { cfg with ignore_extensions := cfg.ignore_extensions ++ toks }) ∧
    (∀ name : Str, ∀ c ∈ extOf name, ¬(65 ≤ c ∧ c ≤ 90)) ∧
    (∀ tok name : Str, (∃ c ∈ tok, 65 ≤ c ∧ c ≤ 90) → tok ≠ extOf name) ∧
    (∀ (ignore : List Str) (es : List Entry) (name sub : Str),
      (name, sub) ∉
        (scan [[80, 78, 71]] ignore { moves := [], plog := [] } es).1.moves) := by
  refine ⟨?_, extOf_no_upper, ?_, ?_⟩
  · intro toks cfg h
    have hp : ∀ t ∈ toks, (fun t => !startsWithDash t) t = true := by
      intro t ht
      show (!startsWithDash t) = true
      rw [h t ht]
      rfl
    constructor
    · rw [parseArgs_cons, if_neg (by decide), if_pos (Or.inl rfl),
        dropWhile_eq_nil_of_all _ _ hp, takeWhile_eq_self_of_all _ _ hp,
        parseArgs_nil]
    · rw [parseArgs_cons, if_neg (by decide), if_neg (by decide),
        if_pos (Or.inl rfl), dropWhile_eq_nil_of_all _ _ hp,
        takeWhile_eq_self_of_all _ _ hp, parseArgs_nil]
  · rintro tok name ⟨c, hctok, hup⟩ heq
    exact extOf_no_upper name c (heq ▸ hctok) hup
  · intro ignore es name sub hp
    rcases scan_moves_sub [[80, 78, 71]] ignore _ es (name, sub) hp with hmem | ⟨hmc, _⟩
    · simp at hmem
    · unfold moveCondition at hmc
      simp only [Bool.and_eq_true, Bool.or_eq_true] at hmc
      obtain ⟨_, ⟨hcon | hemp, _⟩⟩ := hmc
      · have hext : extOf name = [80, 78, 71] :=
          List.mem_singleton.mp ((listContains_iff _ _).mp hcon)
        exact extOf_no_upper name 80 (by rw [hext]; exact List.mem_cons_self _ _)
          (by omega)
      · simp [List.isEmpty] at hemp

/-- C10 witness: `-e PNG` stores the token verbatim, and with include
list `{PNG}` the file `a.png` is not moved. -/
theorem claim_C10_witness :
    parseArgs [strEShort, [80, 78, 71]] defaultConfig =
      .ok { defaultConfig with relevant_extensions := [[80, 78, 71]] } ∧
    ([97, 46, 112, 110, 103], strImages) ∉
      (scan [[80, 78, 71]] [] { moves := [], plog := [] }
        [⟨[97, 46, 112, 110, 103], true, none, none⟩]).1.moves :=
  ⟨(claim_C10_uppercase_filters_never_match.1 [[80, 78, 71]] defaultConfig
      (by decide)).1,
    claim_C10_uppercase_filters_never_match.2.2.2 []
      [⟨[97, 46, 112, 110, 103], true, none, none⟩]
      [97, 46, 112, 110, 103] strImages⟩

end Tidyup
